import Mathlib

/-!
# Visual Product Matcher — verification of the catalog cache and similarity ranker

Shallow embedding of the core of `src/App.tsx` and `src/lib/similarity.ts`:

* `encodeVec` / `decodeVec` — the base64 vector codec backed by `btoa` / `atob`
  (a `Float32Array` is viewed through its byte buffer; we model each component
  by its 32-bit pattern, a natural number `< 2^32`, and the buffer as the
  little-endian byte sequence of those words);
* `cosineSimilarity` — the similarity kernel, over ideal reals (JS `number`s
  are modelled as real numbers; IEEE rounding and NaN are outside the model);
* `scored` — the ranking pipeline of the `scored` memo in `Home`;
* `saveCatalogCache` / `loadCatalogCache` — the localStorage cache layer,
  with stored strings modelled by their parse results and explicit `Except`
  for the operations (`JSON.parse`, `atob`, typed-array construction,
  `setItem`) that can throw;
* `computeCatalogEmbeddings` — the embedding coordinator, modelled as a
  deterministic state transformer recording the embedding calls it makes and
  the progress values it publishes.  The bounded-concurrency scheduler is
  modelled by processing the items in index order: each item owns a disjoint
  slot and the published progress values depend only on how many items have
  completed, so the observables proved about below are identical under every
  completion order.
-/

namespace VPM

/-! ## Base64 alphabet (`btoa` / `atob`) -/

/-- The standard base64 alphabet used by `btoa`/`atob`. -/
def b64Alphabet : List Char :=
  "ABCDEFGHIJKLMNOPQRSTUVWXYZabcdefghijklmnopqrstuvwxyz0123456789+/".toList

/-- Character for a sextet value (out-of-range values never occur). -/
def b64Char (n : Nat) : Char := b64Alphabet.getD n 'A'

/-- Index of a character in the base64 alphabet, `none` when invalid. -/
def b64Index (c : Char) : Option Nat := b64Alphabet.indexOf? c

/-- ASCII whitespace removed by forgiving-base64 (`atob`). -/
def isB64Ws (c : Char) : Bool :=
  c = ' ' || c = '\t' || c = '\n' || c = '\r' || c = '\x0c'

/-- `btoa` on a byte list: groups of three bytes become four alphabet
characters; a final group of one or two bytes is padded with `'='`. -/
def btoaBytes : List Nat → List Char
  | [] => []
  | [a] => [b64Char (a / 4), b64Char (a % 4 * 16), '=', '=']
  | [a, b] => [b64Char (a / 4), b64Char (a % 4 * 16 + b / 16), b64Char (b % 16 * 4), '=']
  | a :: b :: c :: r =>
      b64Char (a / 4) :: b64Char (a % 4 * 16 + b / 16) ::
      b64Char (b % 16 * 4 + c / 64) :: b64Char (c % 64) :: btoaBytes r

/-- Forgiving-base64 padding removal: when the length is a multiple of four
and the string ends with one or two `'='`, drop them. -/
def stripPad (cs : List Char) : List Char :=
  if cs.length % 4 = 0 then
    match cs.reverse with
    | c1 :: c2 :: r =>
        if c1 = '=' then (if c2 = '=' then r.reverse else (c2 :: r).reverse) else cs
    | [c1] => if c1 = '=' then [] else cs
    | [] => cs
  else cs

/-- Map each character to its sextet value, failing on any character outside
the alphabet (in particular on a leftover `'='`). -/
def toSextets : List Char → Except Unit (List Nat)
  | [] => .ok []
  | c :: r =>
    match b64Index c with
    | some n => (toSextets r).map (fun t => n :: t)
    | none => .error ()

/-- Regroup sextets into bytes: four sextets become three bytes; a final
group of two (resp. three) sextets contributes one (resp. two) bytes, the
leftover low bits being discarded. -/
def b64Decode3 : List Nat → List Nat
  | s1 :: s2 :: s3 :: s4 :: r =>
      (s1 * 4 + s2 / 16) :: (s2 % 16 * 16 + s3 / 4) :: (s3 % 4 * 64 + s4) :: b64Decode3 r
  | [s1, s2] => [s1 * 4 + s2 / 16]
  | [s1, s2, s3] => [s1 * 4 + s2 / 16, s2 % 16 * 16 + s3 / 4]
  | _ => []

/-- `atob`: remove ASCII whitespace, strip padding, reject a length `≡ 1`
(mod 4), map characters to sextets (rejecting invalid ones), regroup into
bytes.  `Except.error` models the `InvalidCharacterError` thrown by `atob`. -/
def atob (s : String) : Except Unit (List Nat) :=
  if (stripPad (s.toList.filter (fun c => !isB64Ws c))).length % 4 = 1 then .error ()
  else (toSextets (stripPad (s.toList.filter (fun c => !isB64Ws c)))).map b64Decode3

/-! ## The vector codec (`encodeVec` / `decodeVec`, App.tsx lines 110–118)

A `Float32Array` component is modelled by its 32-bit pattern (`Nat < 2^32`);
`f.buffer` is the little-endian byte sequence of the words. -/

/-- Little-endian bytes of a list of 32-bit words (the `Uint8Array` view of
the `Float32Array` buffer). -/
def bytesOfWords : List Nat → List Nat
  | [] => []
  | w :: r => w % 256 :: w / 256 % 256 :: w / 65536 % 256 :: w / 16777216 % 256 :: bytesOfWords r

/-- Rebuild 32-bit words from little-endian bytes (the `Float32Array`
constructed over the decoded buffer). -/
def wordsOfBytes : List Nat → List Nat
  | b0 :: b1 :: b2 :: b3 :: r =>
      (b0 + 256 * b1 + 65536 * b2 + 16777216 * b3) :: wordsOfBytes r
  | _ => []

/-- `encodeVec`: `btoa(String.fromCharCode(...new Uint8Array(f.buffer)))`. -/
def encodeVec (v : List Nat) : String := ⟨btoaBytes (bytesOfWords v)⟩

/-- `decodeVec`: `atob`, then view the bytes as a `Float32Array`; the typed
array constructor throws (`Except.error`) when the byte length is not a
multiple of four. -/
def decodeVec (s : String) : Except Unit (List Nat) :=
  match atob s with
  | .error e => .error e
  | .ok bytes => if bytes.length % 4 = 0 then .ok (wordsOfBytes bytes) else .error ()

/-! ### Codec lemmas -/

/-- Sextet stream of a byte list, so that `btoaBytes bs` is the corresponding
characters followed by padding. -/
def b64Sextets : List Nat → List Nat
  | [] => []
  | [a] => [a / 4, a % 4 * 16]
  | [a, b] => [a / 4, a % 4 * 16 + b / 16, b % 16 * 4]
  | a :: b :: c :: r =>
      a / 4 :: (a % 4 * 16 + b / 16) :: (b % 16 * 4 + c / 64) :: c % 64 :: b64Sextets r

/-- Number of padding characters emitted by `btoaBytes`. -/
def b64PadLen : List Nat → Nat
  | [] => 0
  | [_] => 2
  | [_, _] => 1
  | _ :: _ :: _ :: r => b64PadLen r

/-! ## `cosineSimilarity` (src/lib/similarity.ts)

JS `number`s are modelled as ideal reals.  The loop runs over the indices of
`a`; we model the iteration by `a.zip b`, which is faithful whenever
`a.length ≤ b.length` (when `b` is shorter, the JS loop reads `undefined`
and every accumulator becomes NaN, which ideal reals cannot represent). -/

/-- The accumulated `(dot, na, nb)` of the loop. -/
def cosineSums (a b : List ℝ) : ℝ × ℝ × ℝ :=
  (a.zip b).foldl (fun s p => (s.1 + p.1 * p.2, s.2.1 + p.1 * p.1, s.2.2 + p.2 * p.2))
    (0, 0, 0)

/-- `dot(a, b)` over the paired components. -/
def dotList (a b : List ℝ) : ℝ := ((a.zip b).map (fun p => p.1 * p.2)).sum

/-- Sum of squared components (the quantity under `Math.sqrt`). -/
def sumSq (a : List ℝ) : ℝ := (a.map (fun x => x * x)).sum

/-- `cosineSimilarity`: `dot / (Math.sqrt(na) * Math.sqrt(nb) || 1)`.  The
JS `|| 1` replaces a zero denominator by `1`. -/
noncomputable def cosineSimilarity (a b : List ℝ) : ℝ :=
  let s := cosineSums a b
  let denom := if Real.sqrt s.2.1 * Real.sqrt s.2.2 = 0 then 1
    else Real.sqrt s.2.1 * Real.sqrt s.2.2
  s.1 / denom


/-! ## The similarity ranker (the `scored` memo, App.tsx lines 346–363) -/

/-- A catalog item (`src/data/products.ts`). -/
structure Product where
  id : Nat
  name : String
  category : String
  price : ℝ
  image : String

instance : Inhabited Product := ⟨⟨0, "", "", 0, ""⟩⟩

/-- A scored row: `Product & { score: number }` plus the `_idx` field. -/
structure Scored where
  product : Product
  score : ℝ
  idx : Nat

/-- The row-building loop: for each catalog index with a present vector,
compute `sameClass`, drop the row under `onlySameClass`, and attach
`score = Math.max(0, Math.min(1, base + boost))`. -/
noncomputable def scoredRows (q : List ℝ) (queryLabels : List String)
    (products : List Product) (embeds : List (Option (List ℝ)))
    (labels : List (List String)) (preferQueryClass onlySameClass : Bool) : List Scored :=
  (List.range products.length).filterMap (fun i =>
    match embeds.getD i none with
    | none => none
    | some emb =>
      let sameClass := (labels.getD i []).any (fun l => queryLabels.contains l)
      if onlySameClass && !sameClass then none
      else
        let base := cosineSimilarity q emb
        let boost : ℝ := if preferQueryClass && sameClass then 0.15 else 0
        some ⟨products.getD i default, max 0 (min 1 (base + boost)), i⟩)

open Classical in
/-- The tail of the memo: category filter, stable sort by descending score,
minimum-similarity filter, `topK` truncation, and the final re-indexing map. -/
noncomputable def rankPipeline (rows : List Scored) (minScore : ℝ) (topK : Nat)
    (category : String) : List Scored :=
  (((((if category = "All" then rows
        else rows.filter (fun d => d.product.category == category)).mergeSort
      (fun a b => decide (b.score ≤ a.score))).filter
      (fun d => decide (minScore ≤ d.score))).take topK).enum).map
    (fun p => { p.2 with idx := p.1 })

/-- The whole `scored` memo: empty when no query vector exists. -/
noncomputable def scored (queryEmbed : Option (List ℝ)) (queryLabels : List String)
    (products : List Product) (embeds : List (Option (List ℝ)))
    (labels : List (List String)) (minScore : ℝ) (topK : Nat) (category : String)
    (preferQueryClass onlySameClass : Bool) : List Scored :=
  match queryEmbed with
  | none => []
  | some q =>
      rankPipeline (scoredRows q queryLabels products embeds labels
        preferQueryClass onlySameClass) minScore topK category


/-! ## The localStorage cache (App.tsx lines 119–150)

A stored string is modelled by its parse result: a localStorage slot is
`none` when the key is absent (`getItem` returns `null`, so the code parses
`'{}'`, the empty object), `some (.error ())` when the stored string is one
that `JSON.parse` rejects, and `some (.ok o)` when it parses to the object
`o`.  Vectors inside the object are still genuine encoded strings, decoded
by the real `decodeVec`. -/

/-- Parsed `vpm:vectors` entry: item id ↦ encoded vector string. -/
abbrev VecStoreObj := List (Nat × String)

/-- Parsed `vpm:labels` entry: item id ↦ label list. -/
abbrev LabStoreObj := List (Nat × List String)

/-- `JSON.parse(localStorage.getItem(key) || '{}')`. -/
def parseStore {α : Type} (empty : α) : Option (Except Unit α) → Except Unit α
  | none => .ok empty
  | some r => r

/-- `saveCatalogCache`: build the two records (`ve` keeps only present
vectors, `la` only non-empty label lists) and write them with `setItem`.
There is no try/catch around the writes, so a rejected `setItem` (e.g.
quota exceeded) propagates as `Except.error`. -/
def saveCatalogCache (setItemOk : Bool) (products : List Product)
    (embeds : List (Option (List Nat))) (labels : List (List String)) :
    Except Unit (VecStoreObj × LabStoreObj) :=
  if setItemOk then
    .ok ((List.range products.length).filterMap (fun i =>
        (embeds.getD i none).map (fun v => ((products.getD i default).id, encodeVec v))),
      (List.range products.length).filterMap (fun i =>
        if (labels.getD i []).isEmpty then none
        else some ((products.getD i default).id, labels.getD i [])))
  else .error ()

/-- JS truthiness of `ve[id]` for a string value: the entry must be present
and non-empty. -/
def lookupTruthyStr (ve : VecStoreObj) (id : Nat) : Option String :=
  match ve.lookup id with
  | some s => if s = "" then none else some s
  | none => none

/-- The decode loop of `loadCatalogCache`: each truthy entry is decoded
(`decodeVec` may throw, aborting the whole `try` block); other slots
stay `null`. -/
def decodeEntries (ve : VecStoreObj) : List Nat → Except Unit (List (Option (List Nat)))
  | [] => .ok []
  | id :: r =>
    match lookupTruthyStr ve id with
    | some s =>
      match decodeVec s with
      | .error e => .error e
      | .ok v => (decodeEntries ve r).map (fun t => some v :: t)
    | none => (decodeEntries ve r).map (fun t => none :: t)

/-- The `try` block of `loadCatalogCache`: parse both entries, decode the
vectors, assemble the label table, and return `some` tables only when at
least one vector was found (`count > 0`), `none` otherwise. -/
def loadCatalogCacheBody (products : List Product)
    (vecStore : Option (Except Unit VecStoreObj))
    (labStore : Option (Except Unit LabStoreObj)) :
    Except Unit (Option (List (Option (List Nat)) × List (List String))) :=
  match parseStore [] vecStore with
  | .error e => .error e
  | .ok ve =>
    match parseStore [] labStore with
    | .error e => .error e
    | .ok la =>
      match decodeEntries ve (products.map (·.id)) with
      | .error e => .error e
      | .ok E =>
        if 0 < E.countP (fun o => o.isSome) then
          .ok (some (E, products.map (fun p => (la.lookup p.id).getD [])))
        else .ok none

/-- `loadCatalogCache`: the surrounding catch maps any thrown error to the
cold-cache result `none`. -/
def loadCatalogCache (products : List Product)
    (vecStore : Option (Except Unit VecStoreObj))
    (labStore : Option (Except Unit LabStoreObj)) :
    Option (List (Option (List Nat)) × List (List String)) :=
  match loadCatalogCacheBody products vecStore labStore with
  | .ok r => r
  | .error _ => none

/-! ## The embedding coordinator (`computeCatalogEmbeddings`, lines 292–340)

The per-item work is abstracted by an oracle `Nat → Option (V × List String)`
(`some` = load + detect + embed + classify succeeded with that vector and
label list, `none` = the item's try-block threw and the catch recorded a
`null` slot and empty labels).  The bounded-concurrency scheduler is
modelled by processing the missing items in index order; each item owns a
disjoint slot and every published progress value depends only on how many
items have completed, so the observables below are the same under every
completion order.  The final `saveCatalogCache` call's outcome is the
`saveOk` flag. -/

inductive CatalogStatus
  | idle
  | processing
  | ready
deriving DecidableEq

/-- The React state touched by the coordinator. -/
structure FillState (V : Type) where
  embeds : List (Option V)
  labels : List (List String)
  statusCatalog : CatalogStatus
  progress : ℚ
deriving DecidableEq

/-- Loop accumulator: the `out` / `outLabels` copies, the `done` counter,
the current `progress`, plus the observables (published progress values and
indices on which embedding work was performed). -/
structure FillAcc (V : Type) where
  out : List (Option V)
  outLabels : List (List String)
  done : Nat
  progress : ℚ
  published : List ℚ
  calls : List Nat
deriving DecidableEq

/-- Result of one invocation: the embedding calls made, the progress values
published in order, the React state after the call settles, and whether an
exception escaped the invocation. -/
structure FillResult (V : Type) where
  calls : List Nat
  published : List ℚ
  final : FillState V
  crashed : Bool
deriving DecidableEq

/-- Processing of one index: `if (out[idx]) continue`, otherwise perform the
embedding work, record the result (a failed item's slot becomes `null` with
empty labels), bump `done` and publish `done / PRODUCTS.length`. -/
def fillStep {V : Type} (oracle : Nat → Option (V × List String)) (n : Nat)
    (acc : FillAcc V) (idx : Nat) : FillAcc V :=
  if (acc.out.getD idx none).isSome then acc
  else
    { out :=
        match oracle idx with
        | some (v, _) => acc.out.set idx (some v)
        | none => acc.out.set idx none,
      outLabels :=
        match oracle idx with
        | some (_, ls) => acc.outLabels.set idx ls
        | none => acc.outLabels.set idx [],
      done := acc.done + 1,
      progress := ((acc.done + 1 : ℚ)) / n,
      published := acc.published ++ [((acc.done + 1 : ℚ)) / n],
      calls := acc.calls ++ [idx] }

/-- Lines 336–339: `saveCatalogCache` followed by the three state commits.
When the save throws (`saveOk = false`), the commits never run: the state
keeps its old tables, the status stays `processing` (set on line 294), and
the exception escapes (`crashed`). -/
def fillFinish {V : Type} (saveOk : Bool) (st : FillState V) (acc : FillAcc V) :
    FillResult V :=
  if saveOk then
    ⟨acc.calls, acc.published,
      ⟨acc.out, acc.outLabels, .ready, acc.progress⟩, false⟩
  else
    ⟨acc.calls, acc.published,
      ⟨st.embeds, st.labels, .processing, acc.progress⟩, true⟩

/-- `computeCatalogEmbeddings`: re-entrancy guard, initial `done` counter and
progress publication, the processing loop, then save and commit. -/
def computeCatalogEmbeddings {V : Type} (oracle : Nat → Option (V × List String))
    (saveOk : Bool) (n : Nat) (st : FillState V) : FillResult V :=
  if st.statusCatalog = .processing then ⟨[], [], st, false⟩
  else
    fillFinish saveOk st
      ((List.range n).foldl (fillStep oracle n)
        ⟨st.embeds, st.labels, st.embeds.countP (fun o => o.isSome),
          ((st.embeds.countP (fun o => o.isSome) : ℚ)) / n,
          [((st.embeds.countP (fun o => o.isSome) : ℚ)) / n], []⟩)


/-! ## Theorems -/

theorem btoaBytes_eq_core_pad (bs : List Nat) :
    btoaBytes bs = (b64Sextets bs).map b64Char ++ List.replicate (b64PadLen bs) '=' := by
  induction bs using btoaBytes.induct with
  | case1 => simp [btoaBytes, b64Sextets, b64PadLen]
  | case2 a => simp [btoaBytes, b64Sextets, b64PadLen, List.replicate]
  | case3 a b => simp [btoaBytes, b64Sextets, b64PadLen, List.replicate]
  | case4 a b c r ih => simp [btoaBytes, b64Sextets, b64PadLen, ih]

theorem btoaBytes_length_mod4 (bs : List Nat) : (btoaBytes bs).length % 4 = 0 := by
  induction bs using btoaBytes.induct with
  | case1 => simp [btoaBytes]
  | case2 a => simp [btoaBytes]
  | case3 a b => simp [btoaBytes]
  | case4 a b c r ih =>
    have h : (btoaBytes (a :: b :: c :: r)).length = (btoaBytes r).length + 4 := by
      simp [btoaBytes]
    omega

theorem b64Char_mem_alphabet (n : Nat) : b64Char n ∈ b64Alphabet := by
  unfold b64Char
  rcases Nat.lt_or_ge n b64Alphabet.length with h | h
  · rw [List.getD_eq_getElem _ _ h]; exact List.getElem_mem _
  · rw [List.getD_eq_default _ _ h]; decide

theorem alphabet_ne_eq : ∀ c ∈ b64Alphabet, c ≠ '=' := by decide

theorem alphabet_not_ws : ∀ c ∈ b64Alphabet, isB64Ws c = false := by decide

theorem b64Char_ne_eq (n : Nat) : b64Char n ≠ '=' :=
  alphabet_ne_eq _ (b64Char_mem_alphabet n)

theorem b64Char_not_ws (n : Nat) : isB64Ws (b64Char n) = false :=
  alphabet_not_ws _ (b64Char_mem_alphabet n)

theorem b64Index_b64Char : ∀ n, n < 64 → b64Index (b64Char n) = some n := by decide

theorem b64Sextets_lt (bs : List Nat) (hb : ∀ x ∈ bs, x < 256) :
    ∀ s ∈ b64Sextets bs, s < 64 := by
  induction bs using b64Sextets.induct with
  | case1 => simp [b64Sextets]
  | case2 a =>
    have ha := hb a (by simp)
    simp only [b64Sextets, List.mem_cons, List.not_mem_nil, or_false]
    rintro s (rfl | rfl) <;> omega
  | case3 a b =>
    have ha := hb a (by simp)
    have hbb := hb b (by simp)
    simp only [b64Sextets, List.mem_cons, List.not_mem_nil, or_false]
    rintro s (rfl | rfl | rfl) <;> omega
  | case4 a b c r ih =>
    have ha := hb a (by simp)
    have hbb := hb b (by simp)
    have hc := hb c (by simp)
    have ih' := ih (fun x hx => hb x (by simp [hx]))
    simp only [b64Sextets, List.mem_cons]
    rintro s (rfl | rfl | rfl | rfl | hs)
    · omega
    · omega
    · omega
    · omega
    · exact ih' s hs

theorem toSextets_map_b64Char (sx : List Nat) (h : ∀ s ∈ sx, s < 64) :
    toSextets (sx.map b64Char) = .ok sx := by
  induction sx with
  | nil => rfl
  | cons s r ih =>
    have hs := h s (by simp)
    have ih' := ih (fun x hx => h x (by simp [hx]))
    simp [toSextets, b64Index_b64Char s hs, ih', Except.map]

theorem b64Decode3_b64Sextets (bs : List Nat) (hb : ∀ x ∈ bs, x < 256) :
    b64Decode3 (b64Sextets bs) = bs := by
  induction bs using b64Sextets.induct with
  | case1 => rfl
  | case2 a =>
    have ha := hb a (by simp)
    simp only [b64Sextets, b64Decode3, List.cons.injEq, and_true]
    omega
  | case3 a b =>
    have ha := hb a (by simp)
    have hbb := hb b (by simp)
    simp only [b64Sextets, b64Decode3, List.cons.injEq, and_true]
    refine ⟨by omega, by omega⟩
  | case4 a b c r ih =>
    have ha := hb a (by simp)
    have hbb := hb b (by simp)
    have hc := hb c (by simp)
    have ih' := ih (fun x hx => hb x (by simp [hx]))
    simp only [b64Sextets, b64Decode3, ih', List.cons.injEq, and_true]
    refine ⟨by omega, by omega, by omega⟩

theorem b64Sextets_length_mod (bs : List Nat) : (b64Sextets bs).length % 4 ≠ 1 := by
  induction bs using b64Sextets.induct with
  | case1 => simp [b64Sextets]
  | case2 a => simp [b64Sextets]
  | case3 a b => simp [b64Sextets]
  | case4 a b c r ih =>
    have h : (b64Sextets (a :: b :: c :: r)).length = (b64Sextets r).length + 4 := by
      simp [b64Sextets]
    omega

theorem btoaBytes_no_ws (bs : List Nat) :
    (btoaBytes bs).filter (fun c => !isB64Ws c) = btoaBytes bs := by
  rw [List.filter_eq_self]
  intro c hc
  rw [btoaBytes_eq_core_pad] at hc
  rcases List.mem_append.mp hc with h | h
  · rcases List.mem_map.mp h with ⟨n, _, rfl⟩
    simp [b64Char_not_ws n]
  · rw [List.eq_of_mem_replicate h]
    decide

theorem b64PadLen_le (bs : List Nat) : b64PadLen bs ≤ 2 := by
  induction bs using b64PadLen.induct <;> simp [b64PadLen] <;> assumption

theorem stripPad_core_pad (bs : List Nat) :
    stripPad ((b64Sextets bs).map b64Char ++ List.replicate (b64PadLen bs) '=') =
      (b64Sextets bs).map b64Char := by
  have hlen : ((b64Sextets bs).map b64Char ++ List.replicate (b64PadLen bs) '=').length % 4 = 0 := by
    have := btoaBytes_length_mod4 bs
    rw [btoaBytes_eq_core_pad] at this
    exact this
  have hcore : ∀ c ∈ (b64Sextets bs).map b64Char, c ≠ '=' := by
    intro c hc
    rcases List.mem_map.mp hc with ⟨n, _, rfl⟩
    exact b64Char_ne_eq n
  unfold stripPad
  rw [if_pos hlen]
  set xs := (b64Sextets bs).map b64Char with hxs
  have hpadle := b64PadLen_le bs
  interval_cases h : b64PadLen bs
  · -- no padding
    simp only [List.replicate, List.append_nil]
    rcases hrev : xs.reverse with _ | ⟨c1, r⟩
    · rfl
    · have hc1 : c1 ≠ '=' := by
        refine hcore c1 ?_
        rw [← List.mem_reverse, hrev]; simp
      rcases r with _ | ⟨c2, r2⟩
      · simp [hc1]
      · simp [hc1]
  · -- one '='
    have hrw : (xs ++ List.replicate 1 '=').reverse = '=' :: xs.reverse := by
      simp [List.replicate]
    rw [hrw]
    rcases hrev : xs.reverse with _ | ⟨c2, r⟩
    · have : xs = [] := by simpa using congrArg List.reverse hrev
      simp [this]
    · have hc2 : c2 ≠ '=' := by
        refine hcore c2 ?_
        rw [← List.mem_reverse, hrev]; simp
      simp only [if_pos rfl, if_neg hc2]
      rw [← hrev, List.reverse_reverse]
      simp
  · -- two '='
    have hrw : (xs ++ List.replicate 2 '=').reverse = '=' :: '=' :: xs.reverse := by
      simp [List.replicate]
    rw [hrw]
    simp only [if_pos rfl, List.reverse_reverse]
    simp

theorem atob_btoaBytes (bs : List Nat) (hb : ∀ x ∈ bs, x < 256) :
    atob ⟨btoaBytes bs⟩ = .ok bs := by
  unfold atob
  have h1 : (String.mk (btoaBytes bs)).toList = btoaBytes bs := rfl
  rw [h1, btoaBytes_no_ws bs, btoaBytes_eq_core_pad bs, stripPad_core_pad bs]
  have h2 : ((b64Sextets bs).map b64Char).length % 4 ≠ 1 := by
    rw [List.length_map]
    exact b64Sextets_length_mod bs
  rw [if_neg h2, toSextets_map_b64Char _ (b64Sextets_lt bs hb)]
  simp [Except.map, b64Decode3_b64Sextets bs hb]

theorem bytesOfWords_lt (v : List Nat) : ∀ b ∈ bytesOfWords v, b < 256 := by
  induction v with
  | nil => simp [bytesOfWords]
  | cons w r ih =>
    simp only [bytesOfWords, List.mem_cons]
    rintro b (rfl | rfl | rfl | rfl | hb)
    · omega
    · omega
    · omega
    · omega
    · exact ih b hb

theorem bytesOfWords_length (v : List Nat) : (bytesOfWords v).length % 4 = 0 := by
  induction v with
  | nil => rfl
  | cons w r ih =>
    have h : (bytesOfWords (w :: r)).length = (bytesOfWords r).length + 4 := by
      simp [bytesOfWords]
    omega

theorem wordsOfBytes_bytesOfWords (v : List Nat) (hv : ∀ w ∈ v, w < 4294967296) :
    wordsOfBytes (bytesOfWords v) = v := by
  induction v with
  | nil => rfl
  | cons w r ih =>
    have hw := hv w (by simp)
    have ih' := ih (fun x hx => hv x (by simp [hx]))
    simp only [bytesOfWords, wordsOfBytes, ih', List.cons.injEq, and_true]
    omega

/-- **C3.** The codec round-trips: decoding an encoded vector recovers every
component exactly (components modelled by their 32-bit patterns). -/
theorem decodeVec_encodeVec (v : List Nat) (hv : ∀ w ∈ v, w < 4294967296) :
    decodeVec (encodeVec v) = .ok v := by
  unfold decodeVec encodeVec
  rw [atob_btoaBytes _ (bytesOfWords_lt v)]
  simp only []
  rw [if_pos (bytesOfWords_length v), wordsOfBytes_bytesOfWords v hv]

/-- Witness for `decodeVec_encodeVec` at a concrete three-component vector. -/
theorem decodeVec_encodeVec_witness :
    (∀ w ∈ [0, 1, 4294967295], w < 4294967296) ∧
      decodeVec (encodeVec [0, 1, 4294967295]) = .ok [0, 1, 4294967295] :=
  ⟨by decide, decodeVec_encodeVec [0, 1, 4294967295] (by decide)⟩

theorem cosineSums_foldl (l : List (ℝ × ℝ)) (s : ℝ × ℝ × ℝ) :
    l.foldl (fun s p => (s.1 + p.1 * p.2, s.2.1 + p.1 * p.1, s.2.2 + p.2 * p.2)) s =
      (s.1 + (l.map (fun p => p.1 * p.2)).sum,
        s.2.1 + (l.map (fun p => p.1 * p.1)).sum,
        s.2.2 + (l.map (fun p => p.2 * p.2)).sum) := by
  induction l generalizing s with
  | nil => simp
  | cons p r ih =>
    simp only [List.foldl_cons, List.map_cons, List.sum_cons, ih]
    refine Prod.ext (by simp; ring) (Prod.ext (by simp; ring) (by simp; ring))

theorem cosineSums_eq (a b : List ℝ) :
    cosineSums a b = (dotList a b, ((a.zip b).map (fun p => p.1 * p.1)).sum,
      ((a.zip b).map (fun p => p.2 * p.2)).sum) := by
  unfold cosineSums dotList
  rw [cosineSums_foldl]
  simp

theorem zip_sq_left (a b : List ℝ) (h : a.length = b.length) :
    ((a.zip b).map (fun p => p.1 * p.1)).sum = sumSq a := by
  induction a generalizing b with
  | nil => simp [sumSq]
  | cons x r ih =>
    cases b with
    | nil => simp at h
    | cons y s =>
      simp only [List.length_cons, Nat.succ_inj] at h
      simp only [sumSq, List.zip_cons_cons, List.map_cons, List.sum_cons]
      rw [show ((r.zip s).map (fun p => p.1 * p.1)).sum = sumSq r from ih s h]
      rfl

theorem zip_sq_right (a b : List ℝ) (h : a.length = b.length) :
    ((a.zip b).map (fun p => p.2 * p.2)).sum = sumSq b := by
  induction a generalizing b with
  | nil => cases b with
    | nil => simp [sumSq]
    | cons y s => simp at h
  | cons x r ih =>
    cases b with
    | nil => simp at h
    | cons y s =>
      simp only [List.length_cons, Nat.succ_inj] at h
      simp only [sumSq, List.zip_cons_cons, List.map_cons, List.sum_cons]
      rw [show ((r.zip s).map (fun p => p.2 * p.2)).sum = sumSq s from ih s h]
      rfl

/-- **C2.** `cosineSimilarity a b` equals `dot(a,b) / (‖a‖·‖b‖)` except that
a zero norm on either side makes the denominator `1`; the denominator used
is never zero, so the function always returns a value.  (Stated under the
spec's invariant that compared vectors have equal length.) -/
theorem cosineSimilarity_spec (a b : List ℝ) (hlen : a.length = b.length) :
    cosineSimilarity a b =
      dotList a b /
        (if Real.sqrt (sumSq a) = 0 ∨ Real.sqrt (sumSq b) = 0 then 1
          else Real.sqrt (sumSq a) * Real.sqrt (sumSq b)) ∧
      (if Real.sqrt (sumSq a) = 0 ∨ Real.sqrt (sumSq b) = 0 then (1 : ℝ)
        else Real.sqrt (sumSq a) * Real.sqrt (sumSq b)) ≠ 0 := by
  constructor
  · unfold cosineSimilarity
    rw [cosineSums_eq a b]
    simp only [zip_sq_left a b hlen, zip_sq_right a b hlen]
    congr 1
    by_cases h : Real.sqrt (sumSq a) * Real.sqrt (sumSq b) = 0
    · rw [if_pos h, if_pos (mul_eq_zero.mp h)]
    · rw [if_neg h, if_neg (fun hor => h (mul_eq_zero.mpr hor))]
  · by_cases h : Real.sqrt (sumSq a) = 0 ∨ Real.sqrt (sumSq b) = 0
    · rw [if_pos h]; norm_num
    · rw [if_neg h]
      push_neg at h
      exact mul_ne_zero h.1 h.2

/-- Witness for `cosineSimilarity_spec` at the zero vector. -/
theorem cosineSimilarity_spec_witness :
    cosineSimilarity [(0 : ℝ)] [(0 : ℝ)] =
      dotList [(0 : ℝ)] [(0 : ℝ)] /
        (if Real.sqrt (sumSq [(0 : ℝ)]) = 0 ∨ Real.sqrt (sumSq [(0 : ℝ)]) = 0 then 1
          else Real.sqrt (sumSq [(0 : ℝ)]) * Real.sqrt (sumSq [(0 : ℝ)])) ∧
      (if Real.sqrt (sumSq [(0 : ℝ)]) = 0 ∨ Real.sqrt (sumSq [(0 : ℝ)]) = 0 then (1 : ℝ)
        else Real.sqrt (sumSq [(0 : ℝ)]) * Real.sqrt (sumSq [(0 : ℝ)])) ≠ 0 :=
  cosineSimilarity_spec [(0 : ℝ)] [(0 : ℝ)] rfl

/-- **C9 counterexample.** Comparing vectors of different length does NOT
fail: `cosineSimilarity [1] [1, 5]` silently returns the value `1`, the
extra component of the longer vector being ignored (it equals the
similarity against `[1]` alone). -/
theorem cosineSimilarity_length_mismatch_counterexample :
    cosineSimilarity [(1 : ℝ)] [1, 5] = 1 ∧
      cosineSimilarity [(1 : ℝ)] [1, 5] = cosineSimilarity [(1 : ℝ)] [1] := by
  have h1 : cosineSimilarity [(1 : ℝ)] [1, 5] = 1 := by
    unfold cosineSimilarity cosineSums
    norm_num [List.zip_cons_cons, Real.sqrt_one]
  have h2 : cosineSimilarity [(1 : ℝ)] [1] = 1 := by
    unfold cosineSimilarity cosineSums
    norm_num [List.zip_cons_cons, Real.sqrt_one]
  exact ⟨h1, h1.trans h2.symm⟩

theorem zip_append_of_le (a : List ℝ) :
    ∀ b e : List ℝ, a.length ≤ b.length → a.zip (b ++ e) = a.zip b := by
  induction a with
  | nil => intro b e _; simp
  | cons x r ih =>
    intro b e h
    cases b with
    | nil => simp at h
    | cons y s =>
      simp only [List.length_cons, Nat.succ_le_succ_iff] at h
      simp [List.zip_cons_cons, ih s e h]

/-- **C9 amended.** `cosineSimilarity` performs no length validation: when
`b` is extended past `a.length` by arbitrary extra components, the result is
unchanged — the comparison silently succeeds using only the first
`a.length` components of each argument. -/
theorem cosineSimilarity_ignores_extra (a b e : List ℝ) (h : a.length ≤ b.length) :
    cosineSimilarity a (b ++ e) = cosineSimilarity a b := by
  unfold cosineSimilarity cosineSums
  rw [zip_append_of_le a b e h]

/-- Witness for `cosineSimilarity_ignores_extra`. -/
theorem cosineSimilarity_ignores_extra_witness :
    cosineSimilarity [(1 : ℝ)] ([1] ++ [5]) = cosineSimilarity [(1 : ℝ)] [1] :=
  cosineSimilarity_ignores_extra [(1 : ℝ)] [1] [5] (by simp)

theorem rankPipeline_mem (rows : List Scored) (minScore : ℝ) (topK : Nat)
    (category : String) (r : Scored) (hr : r ∈ rankPipeline rows minScore topK category) :
    ∃ r0 ∈ rows, r.score = r0.score := by
  unfold rankPipeline at hr
  rcases List.mem_map.mp hr with ⟨p, hp, hpr⟩
  have h1 := List.snd_mem_of_mem_enum hp
  have h2 := List.mem_of_mem_take h1
  have h3 := (List.mem_filter.mp h2).1
  have h4 := (List.mem_mergeSort).mp h3
  have h5 : p.2 ∈ rows := by
    by_cases hcat : category = "All"
    · rwa [if_pos hcat] at h4
    · rw [if_neg hcat] at h4
      exact (List.mem_filter.mp h4).1
  refine ⟨p.2, h5, ?_⟩
  rw [← hpr]

theorem scoredRows_shape (q : List ℝ) (queryLabels : List String)
    (products : List Product) (embeds : List (Option (List ℝ)))
    (labels : List (List String)) (preferQueryClass onlySameClass : Bool)
    (r0 : Scored)
    (hr : r0 ∈ scoredRows q queryLabels products embeds labels preferQueryClass onlySameClass) :
    ∃ i emb, embeds.getD i none = some emb ∧
      r0.score = max 0 (min 1 (cosineSimilarity q emb +
        if preferQueryClass && (labels.getD i []).any (fun l => queryLabels.contains l)
          then (0.15 : ℝ) else 0)) := by
  unfold scoredRows at hr
  rcases List.mem_filterMap.mp hr with ⟨i, _, hf⟩
  rcases hemb : embeds.getD i none with _ | emb
  · rw [hemb] at hf; simp at hf
  · rw [hemb] at hf
    simp only [] at hf
    by_cases hc : (onlySameClass &&
        !(labels.getD i []).any (fun l => queryLabels.contains l)) = true
    · rw [if_pos hc] at hf; simp at hf
    · rw [if_neg hc] at hf
      refine ⟨i, emb, hemb, ?_⟩
      have := Option.some.inj hf
      rw [← this]

/-- **C1.** Every score in the ranker's output lies in `[0, 1]`, and it is
exactly `clamp(base + boost, 0, 1)` for the cosine similarity `base` of the
query vector against the item's vector, with the 0.15 same-class boost. -/
theorem scored_score_bounds (q : List ℝ) (queryLabels : List String)
    (products : List Product) (embeds : List (Option (List ℝ)))
    (labels : List (List String)) (minScore : ℝ) (topK : Nat) (category : String)
    (preferQueryClass onlySameClass : Bool) :
    ∀ r ∈ scored (some q) queryLabels products embeds labels minScore topK category
        preferQueryClass onlySameClass,
      (0 ≤ r.score ∧ r.score ≤ 1) ∧
      ∃ i emb, embeds.getD i none = some emb ∧
        r.score = max 0 (min 1 (cosineSimilarity q emb +
          if preferQueryClass && (labels.getD i []).any (fun l => queryLabels.contains l)
            then (0.15 : ℝ) else 0)) := by
  intro r hr
  have hr' : r ∈ rankPipeline (scoredRows q queryLabels products embeds labels
      preferQueryClass onlySameClass) minScore topK category := hr
  rcases rankPipeline_mem _ _ _ _ r hr' with ⟨r0, hr0, hscore⟩
  rcases scoredRows_shape q queryLabels products embeds labels preferQueryClass
    onlySameClass r0 hr0 with ⟨i, emb, hemb, hval⟩
  have hb : 0 ≤ r0.score ∧ r0.score ≤ 1 := by
    rw [hval]
    constructor
    · exact le_max_left 0 _
    · exact max_le (by norm_num) (min_le_left 1 _)
  exact ⟨by rw [hscore]; exact hb, ⟨i, emb, hemb, by rw [hscore, hval]⟩⟩

theorem cosineSimilarity_zero_zero : cosineSimilarity [(0 : ℝ)] [(0 : ℝ)] = 0 := by
  unfold cosineSimilarity cosineSums
  norm_num [List.zip_cons_cons, Real.sqrt_zero]

theorem scored_eval_example :
    scored (some [(0 : ℝ)]) [] [⟨1, "Shoes 1", "Shoes", 19.99, "img"⟩] [some [0]] [[]]
        0 1 "All" false false =
      [⟨⟨1, "Shoes 1", "Shoes", 19.99, "img"⟩, 0, 0⟩] := by
  have hrows : scoredRows [(0 : ℝ)] [] [⟨1, "Shoes 1", "Shoes", 19.99, "img"⟩]
      [some [0]] [[]] false false = [⟨⟨1, "Shoes 1", "Shoes", 19.99, "img"⟩, 0, 0⟩] := by
    unfold scoredRows
    simp [List.range_succ, cosineSimilarity_zero_zero]
  show rankPipeline _ _ _ _ = _
  rw [hrows]
  unfold rankPipeline
  simp [List.mergeSort_singleton, List.filter, decide_eq_true_eq, List.enum]

/-- Witness for `scored_score_bounds` at a singleton catalog with the zero
vector as both query and item vector. -/
theorem scored_score_bounds_witness :
    ((⟨⟨1, "Shoes 1", "Shoes", 19.99, "img"⟩, 0, 0⟩ : Scored) ∈
      scored (some [(0 : ℝ)]) [] [⟨1, "Shoes 1", "Shoes", 19.99, "img"⟩] [some [0]] [[]]
        0 1 "All" false false) ∧
    ((0 ≤ (0 : ℝ) ∧ (0 : ℝ) ≤ 1) ∧
      ∃ i emb, ([some [0]] : List (Option (List ℝ))).getD i none = some emb ∧
        (0 : ℝ) = max 0 (min 1 (cosineSimilarity [(0 : ℝ)] emb +
          if false && (([[]] : List (List String)).getD i []).any
              (fun l => ([] : List String).contains l)
            then (0.15 : ℝ) else 0))) := by
  have hmem : (⟨⟨1, "Shoes 1", "Shoes", 19.99, "img"⟩, 0, 0⟩ : Scored) ∈
      scored (some [(0 : ℝ)]) [] [⟨1, "Shoes 1", "Shoes", 19.99, "img"⟩] [some [0]] [[]]
        0 1 "All" false false := by
    rw [scored_eval_example]
    exact List.mem_singleton.mpr rfl
  exact ⟨hmem, scored_score_bounds [(0 : ℝ)] [] [⟨1, "Shoes 1", "Shoes", 19.99, "img"⟩]
    [some [0]] [[]] 0 1 "All" false false _ hmem⟩

/-! ### Cache-layer theorems -/

theorem decodeEntries_all_none (ve : VecStoreObj) (ids : List Nat)
    (h : ∀ id ∈ ids, lookupTruthyStr ve id = none) :
    decodeEntries ve ids = .ok (ids.map (fun _ => none)) := by
  induction ids with
  | nil => rfl
  | cons id r ih =>
    have hid := h id (by simp)
    have ih' := ih (fun x hx => h x (by simp [hx]))
    simp [decodeEntries, hid, ih', Except.map]

/-- **C5.** `loadCatalogCache` never throws: every error raised inside the
try block (unparsable JSON, undecodable vector) is caught and becomes the
cold-cache result `none`; with nothing stored the result is the cold-cache
`none`; when the try block succeeds its value is returned unchanged. -/
theorem loadCatalogCache_never_throws (products : List Product)
    (vs : Option (Except Unit VecStoreObj)) (ls : Option (Except Unit LabStoreObj)) :
    (∀ e, loadCatalogCacheBody products vs ls = .error e →
        loadCatalogCache products vs ls = none) ∧
    loadCatalogCache products none none = none ∧
    (∀ t, loadCatalogCacheBody products vs ls = .ok t →
        loadCatalogCache products vs ls = t) := by
  refine ⟨?_, ?_, ?_⟩
  · intro e he
    unfold loadCatalogCache
    rw [he]
  · have hcount : ((products.map (·.id)).map
        (fun _ => (none : Option (List Nat)))).countP (fun o => o.isSome) = 0 := by
      rw [List.countP_eq_zero]
      intro o ho
      rcases List.mem_map.mp ho with ⟨_, _, rfl⟩
      simp
    simp only [loadCatalogCache, loadCatalogCacheBody, parseStore,
      decodeEntries_all_none [] (products.map (·.id)) (fun id _ => rfl), hcount]
    simp
  · intro t ht
    unfold loadCatalogCache
    rw [ht]

/-- Witness for `loadCatalogCache_never_throws`: a corrupt vectors entry is
caught (cold cache), an empty store is a cold cache, and a well-formed store
with one encoded vector loads as the decoded tables. -/
theorem loadCatalogCache_never_throws_witness :
    loadCatalogCache [] (some (.error ())) none = none ∧
    loadCatalogCache [] none none = none ∧
    loadCatalogCache [⟨1, "Shoes 1", "Shoes", 19.99, "img"⟩]
        (some (.ok [(1, encodeVec [0])])) (some (.ok [])) =
      some ([some [0]], [[]]) := by
  refine ⟨(loadCatalogCache_never_throws [] (some (.error ())) none).1 () rfl,
    (loadCatalogCache_never_throws [] none none).2.1,
    (loadCatalogCache_never_throws _ _ _).2.2 _ ?_⟩
  have henc : decodeVec (encodeVec [0]) = .ok [0] := by rfl
  have hne : encodeVec [0] ≠ "" := by decide
  simp [loadCatalogCacheBody, parseStore, decodeEntries, lookupTruthyStr, List.lookup,
    hne, henc, Except.map]

/-- **C10.** `loadCatalogCache` yields the cold-cache result `none` whenever
no catalog item id has a truthy entry in the stored vector map, even when
the stored label map is non-empty (the label store is arbitrary here). -/
theorem loadCatalogCache_no_vectors (products : List Product) (ve : VecStoreObj)
    (la : LabStoreObj) (h : ∀ p ∈ products, lookupTruthyStr ve p.id = none) :
    loadCatalogCache products (some (.ok ve)) (some (.ok la)) = none := by
  have hids : ∀ id ∈ products.map (·.id), lookupTruthyStr ve id = none := by
    intro id hid
    rcases List.mem_map.mp hid with ⟨p, hp, rfl⟩
    exact h p hp
  have hcount : ((products.map (·.id)).map
      (fun _ => (none : Option (List Nat)))).countP (fun o => o.isSome) = 0 := by
    rw [List.countP_eq_zero]
    intro o ho
    rcases List.mem_map.mp ho with ⟨_, _, rfl⟩
    simp
  simp only [loadCatalogCache, loadCatalogCacheBody, parseStore,
    decodeEntries_all_none ve (products.map (·.id)) hids, hcount]
  simp

/-- Witness for `loadCatalogCache_no_vectors`: empty vector map, non-empty
label map. -/
theorem loadCatalogCache_no_vectors_witness :
    (∀ p ∈ [(⟨1, "Shoes 1", "Shoes", 19.99, "img"⟩ : Product)],
        lookupTruthyStr [] p.id = none) ∧
    loadCatalogCache [⟨1, "Shoes 1", "Shoes", 19.99, "img"⟩] (some (.ok []))
        (some (.ok [(1, ["backpack"])])) = none :=
  ⟨fun _ _ => rfl,
    loadCatalogCache_no_vectors [⟨1, "Shoes 1", "Shoes", 19.99, "img"⟩] []
      [(1, ["backpack"])] (fun _ _ => rfl)⟩

/-! ### Coordinator theorems -/

/-- **C6.** A second invocation while a fill is already `processing` is a
no-op: it returns immediately, performing no embedding work, publishing
nothing, and leaving the state untouched (no retry is queued). -/
theorem computeCatalogEmbeddings_reentrant {V : Type}
    (oracle : Nat → Option (V × List String)) (saveOk : Bool) (n : Nat)
    (st : FillState V) (h : st.statusCatalog = .processing) :
    computeCatalogEmbeddings oracle saveOk n st = ⟨[], [], st, false⟩ := by
  unfold computeCatalogEmbeddings
  rw [if_pos h]

/-- Witness for `computeCatalogEmbeddings_reentrant`. -/
theorem computeCatalogEmbeddings_reentrant_witness :
    (⟨[none], [[]], .processing, 0⟩ : FillState Nat).statusCatalog = .processing ∧
    computeCatalogEmbeddings (fun _ => none) true 1
        (⟨[none], [[]], .processing, 0⟩ : FillState Nat) =
      ⟨[], [], ⟨[none], [[]], .processing, 0⟩, false⟩ :=
  ⟨rfl, computeCatalogEmbeddings_reentrant (fun _ => none) true 1 _ rfl⟩

/-- Behaviour of the processing loop: slots are only filled at missing
indices (with the oracle's vector), and `done`, the call list and the
published progress values grow once per missing index. -/
theorem fillFold_invariant {V : Type} (oracle : Nat → Option (V × List String)) (n : Nat)
    (e0 : List (Option V)) (l0 : List (List String)) (d0 : Nat) (q0 : ℚ) (p0 : List ℚ)
    (c0 : List Nat) (he : e0.length = n) :
    ∀ k, k ≤ n →
      ((List.range k).foldl (fillStep oracle n) ⟨e0, l0, d0, q0, p0, c0⟩).out.length = n ∧
      (∀ j, k ≤ j →
        ((List.range k).foldl (fillStep oracle n) ⟨e0, l0, d0, q0, p0, c0⟩).out.getD j none =
          e0.getD j none) ∧
      (∀ j, j < k →
        ((List.range k).foldl (fillStep oracle n) ⟨e0, l0, d0, q0, p0, c0⟩).out.getD j none =
          if (e0.getD j none).isSome then e0.getD j none else (oracle j).map Prod.fst) ∧
      ((List.range k).foldl (fillStep oracle n) ⟨e0, l0, d0, q0, p0, c0⟩).done =
        d0 + ((List.range k).filter (fun i => (e0.getD i none).isNone)).length ∧
      ((List.range k).foldl (fillStep oracle n) ⟨e0, l0, d0, q0, p0, c0⟩).calls =
        c0 ++ (List.range k).filter (fun i => (e0.getD i none).isNone) ∧
      ((List.range k).foldl (fillStep oracle n) ⟨e0, l0, d0, q0, p0, c0⟩).published =
        p0 ++ (List.range
            ((List.range k).filter (fun i => (e0.getD i none).isNone)).length).map
          (fun t => ((d0 + t + 1 : ℕ) : ℚ) / n) := by
  intro k
  induction k with
  | zero =>
    intro _
    simp [he]
  | succ k ih =>
    intro hk1
    obtain ⟨ih1, ih2, ih3, ih4, ih5, ih6⟩ := ih (by omega)
    set A := (List.range k).foldl (fillStep oracle n) ⟨e0, l0, d0, q0, p0, c0⟩ with hA
    have hfold : (List.range (k + 1)).foldl (fillStep oracle n) ⟨e0, l0, d0, q0, p0, c0⟩ =
        fillStep oracle n A k := by
      rw [List.range_succ, List.foldl_append, List.foldl_cons, List.foldl_nil]
    have hAk : A.out.getD k none = e0.getD k none := ih2 k le_rfl
    rcases hk : e0.getD k none with _ | v
    · -- slot k missing: real work happens
      have hkt : (e0.getD k none).isNone = true := by rw [hk]; rfl
      have hfilt : (List.range (k + 1)).filter (fun i => (e0.getD i none).isNone) =
          (List.range k).filter (fun i => (e0.getD i none).isNone) ++ [k] := by
        rw [List.range_succ, List.filter_append]
        simp only [List.filter_cons, List.filter_nil, hkt, if_true]
      have hstep_out : (fillStep oracle n A k).out =
          A.out.set k ((oracle k).map Prod.fst) := by
        rcases horacle : oracle k with _ | ⟨v, ls⟩ <;>
          (unfold fillStep; rw [hAk, hk, horacle]; simp)
      have hstep_done : (fillStep oracle n A k).done = A.done + 1 := by
        rcases horacle : oracle k with _ | ⟨v, ls⟩ <;>
          (unfold fillStep; rw [hAk, hk, horacle]; simp)
      have hstep_pub : (fillStep oracle n A k).published =
          A.published ++ [((A.done : ℚ) + 1) / n] := by
        rcases horacle : oracle k with _ | ⟨v, ls⟩ <;>
          (unfold fillStep; rw [hAk, hk, horacle]; simp)
      have hstep_calls : (fillStep oracle n A k).calls = A.calls ++ [k] := by
        rcases horacle : oracle k with _ | ⟨v, ls⟩ <;>
          (unfold fillStep; rw [hAk, hk, horacle]; simp)
      refine ⟨?_, ?_, ?_, ?_, ?_, ?_⟩
      · rw [hfold, hstep_out, List.length_set]
        exact ih1
      · intro j hj
        rw [hfold, hstep_out]
        have hne : k ≠ j := by omega
        rw [show (A.out.set k ((oracle k).map Prod.fst)).getD j none = A.out.getD j none by
          simp [List.getD, List.getElem?_set_ne hne]]
        exact ih2 j (by omega)
      · intro j hj
        rw [hfold, hstep_out]
        rcases Nat.lt_succ_iff_lt_or_eq.mp hj with hjk | rfl
        · have hne : k ≠ j := by omega
          rw [show (A.out.set k ((oracle k).map Prod.fst)).getD j none = A.out.getD j none by
            simp [List.getD, List.getElem?_set_ne hne]]
          exact ih3 j hjk
        · have hlt : j < A.out.length := by rw [ih1]; omega
          rw [show (A.out.set j ((oracle j).map Prod.fst)).getD j none =
              (oracle j).map Prod.fst by
            simp [List.getD, List.getElem?_set_self, hlt]]
          rw [hk]
          simp
      · rw [hfold, hstep_done, ih4, hfilt]
        simp only [List.length_append, List.length_singleton]
        omega
      · rw [hfold, hstep_calls, ih5, hfilt, List.append_assoc]
      · rw [hfold, hstep_pub, ih6, hfilt, ih4]
        rw [List.length_append, List.length_singleton, List.range_succ, List.map_append,
          List.append_assoc]
        congr 2
        simp only [List.map_cons, List.map_nil, List.cons.injEq, and_true]
        push_cast
        ring
    · -- slot k already present: `continue`
      have hkf : (e0.getD k none).isNone = false := by rw [hk]; rfl
      have hfilt : (List.range (k + 1)).filter (fun i => (e0.getD i none).isNone) =
          (List.range k).filter (fun i => (e0.getD i none).isNone) := by
        rw [List.range_succ, List.filter_append]
        simp only [List.filter_cons, List.filter_nil, hkf]
        simp
      have hstep : fillStep oracle n A k = A := by
        unfold fillStep
        rw [hAk, hk]
        simp
      refine ⟨?_, ?_, ?_, ?_, ?_, ?_⟩
      · rw [hfold, hstep]; exact ih1
      · intro j hj
        rw [hfold, hstep]
        exact ih2 j (by omega)
      · intro j hj
        rw [hfold, hstep]
        rcases Nat.lt_succ_iff_lt_or_eq.mp hj with hjk | rfl
        · exact ih3 j hjk
        · rw [hAk, hk]
          simp
      · rw [hfold, hstep, ih4, hfilt]
      · rw [hfold, hstep, ih5, hfilt]
      · rw [hfold, hstep, ih6, hfilt]

theorem fillFinish_calls {V : Type} (saveOk : Bool) (st : FillState V) (acc : FillAcc V) :
    (fillFinish saveOk st acc).calls = acc.calls := by
  cases saveOk <;> rfl

theorem fillFinish_published {V : Type} (saveOk : Bool) (st : FillState V) (acc : FillAcc V) :
    (fillFinish saveOk st acc).published = acc.published := by
  cases saveOk <;> rfl

/-- **C8 amended.** The `done` counter starts at the number of slots already
present when the fill starts; the coordinator publishes `done / n` (with `n`
the catalog size, not the missing count) once up front and once after each
missing item completes.  This equals `done / missingCount` only when no slot
was present initially. -/
theorem computeCatalogEmbeddings_progress {V : Type}
    (oracle : Nat → Option (V × List String)) (saveOk : Bool) (n : Nat)
    (st : FillState V) (hst : st.statusCatalog ≠ .processing)
    (hlen : st.embeds.length = n) :
    (computeCatalogEmbeddings oracle saveOk n st).published =
      ((st.embeds.countP (fun o => o.isSome) : ℚ)) / n ::
        (List.range
            ((List.range n).filter (fun i => (st.embeds.getD i none).isNone)).length).map
          (fun t => ((st.embeds.countP (fun o => o.isSome) + t + 1 : ℕ) : ℚ) / n) := by
  unfold computeCatalogEmbeddings
  rw [if_neg hst, fillFinish_published]
  rw [(fillFold_invariant oracle n st.embeds st.labels
    (st.embeds.countP (fun o => o.isSome))
    (((st.embeds.countP (fun o => o.isSome) : ℚ)) / n)
    [((st.embeds.countP (fun o => o.isSome) : ℚ)) / n] [] hlen n le_rfl).2.2.2.2.2]
  rfl

/-- Witness for `computeCatalogEmbeddings_progress`: one of three slots
present, so `done` starts at 1 and the published values are
`1/3, 2/3, 3/3`. -/
theorem computeCatalogEmbeddings_progress_witness :
    ((⟨[some 7, none, none], [[], [], []], .idle, 0⟩ : FillState Nat).statusCatalog ≠
        .processing) ∧
    (⟨[some 7, none, none], [[], [], []], .idle, 0⟩ : FillState Nat).embeds.length = 3 ∧
    (computeCatalogEmbeddings (fun i => some (i, [])) true 3
        (⟨[some 7, none, none], [[], [], []], .idle, 0⟩ : FillState Nat)).published =
      ((([some 7, none, none] : List (Option Nat)).countP (fun o => o.isSome) : ℚ)) / 3 ::
        (List.range ((List.range 3).filter
            (fun i => (([some 7, none, none] : List (Option Nat)).getD i none).isNone)).length).map
          (fun t => ((([some 7, none, none] : List (Option Nat)).countP (fun o => o.isSome)
              + t + 1 : ℕ) : ℚ) / 3) :=
  ⟨by decide, rfl,
    computeCatalogEmbeddings_progress (fun i => some (i, [])) true 3 _ (by decide) rfl⟩

/-- **C8 counterexample.** With catalog size 3 and one slot already present
(`missingCount = 2`), the published values are `[1/3, 2/3, 1]`: the value
published after the first item completes is `2/3`, not
`done / missingCount = 1/2` as the claim states. -/
theorem computeCatalogEmbeddings_progress_counterexample :
    (computeCatalogEmbeddings (V := Nat) (fun i => some (i, [])) true 3
        ⟨[some 7, none, none], [[], [], []], .idle, 0⟩).published = [1/3, 2/3, 1] ∧
    (computeCatalogEmbeddings (V := Nat) (fun i => some (i, [])) true 3
        ⟨[some 7, none, none], [[], [], []], .idle, 0⟩).published.getD 1 0 ≠ 1 / 2 := by
  have hpub : (computeCatalogEmbeddings (V := Nat) (fun i => some (i, [])) true 3
      ⟨[some 7, none, none], [[], [], []], .idle, 0⟩).published = [1/3, 2/3, 1] := by
    unfold computeCatalogEmbeddings
    rw [if_neg (by decide), fillFinish_published]
    rw [show (⟨[some 7, none, none], [[], [], []], .idle, 0⟩ : FillState Nat).embeds =
      [some 7, none, none] from rfl]
    rw [show (⟨[some 7, none, none], [[], [], []], .idle, 0⟩ : FillState Nat).labels =
      [[], [], []] from rfl]
    rw [(fillFold_invariant (fun i => some (i, [])) 3 [some 7, none, none] [[], [], []]
      (([some 7, none, none] : List (Option Nat)).countP (fun o => o.isSome))
      ((([some 7, none, none] : List (Option Nat)).countP (fun o => o.isSome) : ℚ) /
        ((3 : ℕ) : ℚ))
      [((([some 7, none, none] : List (Option Nat)).countP (fun o => o.isSome) : ℚ)) /
        ((3 : ℕ) : ℚ)] []
      rfl 3 le_rfl).2.2.2.2.2]
    rw [show ([some 7, none, none] : List (Option Nat)).countP (fun o => o.isSome) = 1 from rfl]
    rw [show ((List.range 3).filter
        (fun i => (([some 7, none, none] : List (Option Nat)).getD i none).isNone)) = [1, 2]
      from rfl]
    norm_num [List.range_succ]
  exact ⟨hpub, by rw [hpub]; norm_num⟩

/-- **C7 counterexample.** An item whose embedding failed in the first fill
is left as a `null` slot (indistinguishable from never-tried), so a second
invocation re-embeds it: with a one-item catalog whose only embedding
attempt fails, the second call performs embedding work on index 0 again. -/
theorem computeCatalogEmbeddings_retries_failed_counterexample :
    (computeCatalogEmbeddings (V := Nat) (fun _ => none) true 1
        ((computeCatalogEmbeddings (V := Nat) (fun _ => none) true 1
          ⟨[none], [[]], .idle, 0⟩).final)).calls = [0] ∧
    ((computeCatalogEmbeddings (V := Nat) (fun _ => none) true 1
        ⟨[none], [[]], .idle, 0⟩).final).embeds = [none] ∧
    ([0] : List Nat) ≠ [] := by
  refine ⟨by decide, by decide, by decide⟩

/-- **C7 amended.** When every embedding of the first call succeeds (and the
save is accepted), a second invocation with no catalog changes sees an empty
missing-set and performs no embedding work; items that failed, however,
remain missing and are re-attempted (see the counterexample). -/
theorem computeCatalogEmbeddings_idempotent_on_success {V : Type}
    (oracle : Nat → Option (V × List String)) (n : Nat) (st : FillState V)
    (hst : st.statusCatalog ≠ .processing) (hlen : st.embeds.length = n)
    (hsucc : ∀ i, i < n → (oracle i).isSome) :
    (computeCatalogEmbeddings oracle true n
      ((computeCatalogEmbeddings oracle true n st).final)).calls = [] := by
  have inv := fillFold_invariant oracle n st.embeds st.labels
    (st.embeds.countP (fun o => o.isSome))
    (((st.embeds.countP (fun o => o.isSome) : ℚ)) / n)
    [((st.embeds.countP (fun o => o.isSome) : ℚ)) / n] [] hlen n le_rfl
  set acc := (List.range n).foldl (fillStep oracle n)
    ⟨st.embeds, st.labels, st.embeds.countP (fun o => o.isSome),
      ((st.embeds.countP (fun o => o.isSome) : ℚ)) / n,
      [((st.embeds.countP (fun o => o.isSome) : ℚ)) / n], []⟩ with hacc
  have hfirst : (computeCatalogEmbeddings oracle true n st).final =
      ⟨acc.out, acc.outLabels, .ready, acc.progress⟩ := by
    unfold computeCatalogEmbeddings
    rw [if_neg hst]
    rfl
  have hslots : ∀ i, i < n → ((acc.out.getD i none).isSome) := by
    intro i hi
    rw [inv.2.2.1 i hi]
    by_cases h : (st.embeds.getD i none).isSome
    · rw [if_pos h]; exact h
    · rw [if_neg h]
      rcases Option.isSome_iff_exists.mp (hsucc i hi) with ⟨p, hp⟩
      rw [hp]
      rfl
  rw [hfirst]
  unfold computeCatalogEmbeddings
  rw [if_neg (by simp), fillFinish_calls]
  have inv2 := fillFold_invariant oracle n acc.out acc.outLabels
    (acc.out.countP (fun o => o.isSome))
    (((acc.out.countP (fun o => o.isSome) : ℚ)) / n)
    [((acc.out.countP (fun o => o.isSome) : ℚ)) / n] [] inv.1 n le_rfl
  rw [inv2.2.2.2.2.1, List.nil_append]
  rw [List.filter_eq_nil_iff]
  intro i hi
  have hi' : i < n := List.mem_range.mp hi
  have := hslots i hi'
  rcases h : acc.out.getD i none with _ | v
  · rw [h] at this; simp at this
  · simp

/-- Witness for `computeCatalogEmbeddings_idempotent_on_success`. -/
theorem computeCatalogEmbeddings_idempotent_on_success_witness :
    ((⟨[none], [[]], .idle, 0⟩ : FillState Nat).statusCatalog ≠ .processing) ∧
    (⟨[none], [[]], .idle, 0⟩ : FillState Nat).embeds.length = 1 ∧
    (∀ i, i < 1 → ((fun i => some (i + 5, [])) i : Option (Nat × List String)).isSome) ∧
    (computeCatalogEmbeddings (fun i => some (i + 5, [])) true 1
      ((computeCatalogEmbeddings (fun i => some (i + 5, [])) true 1
        (⟨[none], [[]], .idle, 0⟩ : FillState Nat)).final)).calls = [] :=
  ⟨by decide, rfl, by decide,
    computeCatalogEmbeddings_idempotent_on_success (fun i => some (i + 5, [])) 1 _
      (by decide) rfl (by decide)⟩

/-- **C4 counterexample.** A rejected storage write is not swallowed:
`saveCatalogCache` propagates the error (there is no try/catch around
`setItem`), the fill invocation crashes, and the state never transitions to
`ready`. -/
theorem saveCatalogCache_quota_counterexample :
    saveCatalogCache false [⟨1, "Shoes 1", "Shoes", 19.99, "img"⟩] [some [0]] [["shoe"]] =
      .error () ∧
    (computeCatalogEmbeddings (V := Nat) (fun i => some (i, [])) false 1
        ⟨[none], [[]], .idle, 0⟩).crashed = true ∧
    (computeCatalogEmbeddings (V := Nat) (fun i => some (i, [])) false 1
        ⟨[none], [[]], .idle, 0⟩).final.statusCatalog ≠ .ready := by
  refine ⟨rfl, by decide, by decide⟩

/-- **C4 amended.** When the underlying storage rejects the write, the
failure propagates out of `saveCatalogCache` (which has no try/catch) and
out of the fill invocation: the exception escapes, the computed tables are
not committed, and the status stays `processing` instead of reaching
`ready`. -/
theorem saveFailure_not_swallowed {V : Type}
    (oracle : Nat → Option (V × List String)) (n : Nat) (st : FillState V)
    (hst : st.statusCatalog ≠ .processing) :
    (∀ products embeds labels, saveCatalogCache false products embeds labels = .error ()) ∧
    (computeCatalogEmbeddings oracle false n st).crashed = true ∧
    (computeCatalogEmbeddings oracle false n st).final.statusCatalog = .processing ∧
    (computeCatalogEmbeddings oracle false n st).final.embeds = st.embeds := by
  refine ⟨fun _ _ _ => rfl, ?_, ?_, ?_⟩ <;>
    (unfold computeCatalogEmbeddings; rw [if_neg hst]; rfl)

/-- Witness for `saveFailure_not_swallowed`. -/
theorem saveFailure_not_swallowed_witness :
    ((⟨[none], [[]], .idle, 0⟩ : FillState Nat).statusCatalog ≠ .processing) ∧
    ((∀ products embeds labels,
        saveCatalogCache false products embeds labels = .error ()) ∧
      (computeCatalogEmbeddings (fun i => some (i, [])) false 1
        (⟨[none], [[]], .idle, 0⟩ : FillState Nat)).crashed = true ∧
      (computeCatalogEmbeddings (fun i => some (i, [])) false 1
        (⟨[none], [[]], .idle, 0⟩ : FillState Nat)).final.statusCatalog = .processing ∧
      (computeCatalogEmbeddings (fun i => some (i, [])) false 1
        (⟨[none], [[]], .idle, 0⟩ : FillState Nat)).final.embeds = [none]) :=
  ⟨by decide, saveFailure_not_swallowed (fun i => some (i, [])) 1 _ (by decide)⟩

end VPM
